import Mathlib

/-!
Shallow embedding of the core of G-Research/prometheus-config-loader:
the `templates` package (variable layering, template-set construction and
per-context expansion) and the `cfgloader` package (rule-document loading
and naming), together with theorems settling the specification claims.

Go strings are modelled as lists of characters (`GoStr`); the claims only
involve ASCII content, where Go's byte indexing and character indexing
coincide.  Go maps are modelled as insertion sequences (association lists
where the last binding for a key wins), which captures exactly the
observable lookup behaviour of a Go map regardless of iteration order.
Fallible operations return `Except`/`Option`; a Go panic is modelled as
`Option.none` at the point where it would occur.
-/

set_option autoImplicit false

namespace PromCfg

/-- Model of a Go string: a list of characters. -/
abbrev GoStr := List Char

/-- Embed a Lean string literal as a `GoStr`. -/
def gs (s : String) : GoStr := s.data

/-! ### Go map model

A Go `map[string]V` is modelled by its insertion sequence.  `goSet`
appends a binding; `goGet` returns the most recent binding for a key
(the "last write wins" semantics of Go map assignment).  -/

/-- Go map read `m[k]`: the most recently inserted binding for `k`, if any. -/
def goGet {V : Type} (m : List (GoStr × V)) (k : GoStr) : Option V :=
  (m.reverse.find? (fun kv => kv.1 == k)).map (fun kv => kv.2)

/-- Go map write `m[k] = v`: record the binding as the most recent one. -/
def goSet {V : Type} (m : List (GoStr × V)) (k : GoStr) (v : V) : List (GoStr × V) :=
  m ++ [(k, v)]

/-! ### `path/filepath` fragments used by the repository -/

/-- Strip trailing `'/'` separators, as the first step of `filepath.Base`. -/
def dropTrailingSlashes (p : GoStr) : GoStr :=
  (p.reverse.dropWhile (fun c => c = '/')).reverse

/-- The suffix of `p` after its last `'/'` (all of `p` if it has no slash). -/
def afterLastSlash (p : GoStr) : GoStr :=
  (p.reverse.takeWhile (fun c => c ≠ '/')).reverse

/-- Model of `filepath.Base` on a Unix path: the last element of the path after
trailing separators are removed; `"."` for the empty path and `"/"` for a
path consisting only of separators. -/
def basePath (p : GoStr) : GoStr :=
  if p = [] then gs "."
  else
    let p1 := dropTrailingSlashes p
    let p2 := afterLastSlash p1
    if p2 = [] then gs "/" else p2

/-- Model of `strings.ReplaceAll(s, ".", "-")`: replace every dot by a hyphen.  With a
single-character pattern, Go's `ReplaceAll` is a character-wise map. -/
def replaceAllDots (s : GoStr) : GoStr :=
  s.map (fun c => if c = '.' then '-' else c)

/-- Offset-carrying worker for `strings.Index`. -/
def stringsIndexAux (sub : GoStr) : GoStr → Nat → Option Nat
  | [], i => if sub.isPrefixOf [] then some i else none
  | c :: t, i => if sub.isPrefixOf (c :: t) then some i else stringsIndexAux sub t (i + 1)

/-- Model of `strings.Index(s, sub)`: index of the first occurrence of `sub` inside
`s`, or `none` where Go returns `-1`. -/
def stringsIndex (s sub : GoStr) : Option Nat :=
  stringsIndexAux sub s 0

/-! ### cfgloader: rule model (`rulefmt` intermediate and `v1` target) -/

/-- Model of `rulefmt.Rule`: the decoded shape of one rule in a rule file.  `record`
and `alert` are `omitempty` YAML fields; an absent field decodes to the
empty string. -/
structure Rule where
  record : GoStr
  alert : GoStr
  expr : GoStr
  for_ : GoStr
  labels : List (GoStr × GoStr)
  annotations : List (GoStr × GoStr)
  deriving DecidableEq, Repr

/-- Model of `rulefmt.RuleGroup`: a named group of rules with an optional interval. -/
structure RuleGroup where
  name : GoStr
  interval : GoStr
  rules : List Rule
  deriving DecidableEq, Repr

/-- Model of `rulefmt.RuleGroups`: the two-level decoded shape of a rule file. -/
structure RuleGroups where
  groups : List RuleGroup
  deriving DecidableEq, Repr

/-- Model of `intstr.IntOrString` from the Kubernetes API machinery. -/
inductive IntOrString where
  | str (s : GoStr)
  | int (n : Int)
  deriving DecidableEq, Repr

/-- Model of `v1.Rule` of the prometheus-operator API. -/
structure V1Rule where
  record : GoStr
  alert : GoStr
  expr : IntOrString
  for_ : GoStr
  labels : List (GoStr × GoStr)
  annotations : List (GoStr × GoStr)
  deriving DecidableEq, Repr

/-- Model of `v1.RuleGroup` of the prometheus-operator API. -/
structure V1RuleGroup where
  name : GoStr
  interval : GoStr
  rules : List V1Rule
  deriving DecidableEq, Repr

/-- Model of `v1.PrometheusRuleSpec`: the payload of a PrometheusRule object. -/
structure PrometheusRuleSpec where
  groups : List V1RuleGroup
  deriving DecidableEq, Repr

/-- Model of `v1.PrometheusRule`: spec plus the object metadata the loader sets
(namespace, name, labels). -/
structure PrometheusRule where
  spec : PrometheusRuleSpec
  nspace : GoStr
  name : GoStr
  labels : List (GoStr × GoStr)
  deriving DecidableEq, Repr

/-- Model of `ParseRuleSpec`, with the `yaml.Unmarshal` step modelled by its outcome:
the argument is either the decode error or the decoded `rulefmt.RuleGroups`.
A spec with zero groups is rejected; otherwise every group and every rule is
converted, `record`/`alert`/`for`/labels/annotations copied verbatim and
`expr` wrapped by `intstr.FromString`. -/
def ParseRuleSpec (data : Except GoStr RuleGroups) : Except GoStr PrometheusRuleSpec :=
  match data with
  | .error e => .error e
  | .ok intermediate =>
    if intermediate.groups.length = 0 then .error (gs "No groups found")
    else .ok ⟨intermediate.groups.map (fun g =>
      { name := g.name
        interval := g.interval
        rules := g.rules.map (fun r =>
          { record := r.record
            alert := r.alert
            expr := IntOrString.str r.expr
            for_ := r.for_
            labels := r.labels
            annotations := r.annotations }) })⟩

/-- Model of `buildRuleName`: base name of the file, minus its last five bytes
(`base[:len(base)-5]`, assuming a `".yaml"` suffix), dots replaced by
hyphens, formatted as `"{prometheus}-{stem}-rules"`.  The Go slice panics
when the base name is shorter than five bytes; that panic is modelled as
`none`. -/
def buildRuleName (fileName prometheus : GoStr) : Option GoStr :=
  let base := basePath fileName
  if 5 ≤ base.length then
    some (prometheus ++ ('-' :: replaceAllDots (base.take (base.length - 5))) ++ gs "-rules")
  else none

/-- One rule file as seen by the loader: its path and the outcome of
opening, reading and YAML-decoding it (all three failure modes are returned
as errors by `LoadConfigurationFile` before any further processing). -/
structure RuleFile where
  name : GoStr
  content : Except GoStr RuleGroups
  deriving Repr

/-- Model of `LoadConfigurationFile`: parse the file content into a spec, then build
the PrometheusRule with namespace, derived name and the two labels.  The
outer `Option` is `none` exactly when `buildRuleName` would panic. -/
def LoadConfigurationFile (file : RuleFile) (nspace prometheus : GoStr) :
    Option (Except GoStr PrometheusRule) :=
  match ParseRuleSpec file.content with
  | .error e => some (.error e)
  | .ok spec =>
    match buildRuleName file.name prometheus with
    | none => none
    | some nm =>
      some (.ok { spec := spec
                  nspace := nspace
                  name := nm
                  labels := [(gs "prometheus", prometheus), (gs "role", gs "prometheus-rulefiles")] })

/-- The scan loop of `LoadConfigurationDirectory`: successful rules are
appended to `items`, each failure overwrites `errSeen`.  `none` propagates a
panic. -/
def loadDirLoop (files : List RuleFile) (nspace prometheus : GoStr)
    (items : List PrometheusRule) (errSeen : Option GoStr) :
    Option (List PrometheusRule × Option GoStr) :=
  match files with
  | [] => some (items, errSeen)
  | f :: rest =>
    match LoadConfigurationFile f nspace prometheus with
    | none => none
    | some (.error e) => loadDirLoop rest nspace prometheus items (some e)
    | some (.ok r) => loadDirLoop rest nspace prometheus (items ++ [r]) errSeen

/-- Model of `LoadConfigurationDirectory`, with the `filepath.Glob` step modelled by
its outcome: `files` is the list of matched `*.yaml` paths in scan (sorted)
order.  An empty match (Go: `names == nil`) yields the directory-level
error and no list.  The fixed pattern cannot trigger `ErrBadPattern`. -/
def LoadConfigurationDirectory (files : List RuleFile) (nspace prometheus : GoStr) :
    Option (Option (List PrometheusRule) × Option GoStr) :=
  if files.length = 0 then some (none, some (gs "Unable to expand directory"))
  else
    match loadDirLoop files nspace prometheus [] none with
    | none => none
    | some (items, errSeen) => some (some items, errSeen)

/-! ### templates: variable layers -/

/-- A YAML scalar as it reaches the decoder: its source text, tagged by
whether the bare YAML grammar would read it as a number or as a plain
string.  Models the input side of `gopkg.in/yaml.v2`. -/
inductive YamlScalar where
  | str (raw : GoStr)
  | num (raw : GoStr)
  deriving DecidableEq, Repr

/-- The source text of a scalar. -/
def YamlScalar.text : YamlScalar → GoStr
  | .str raw => raw
  | .num raw => raw

/-- Models `yaml.Unmarshal` of a YAML mapping into a Go
`map[string]string`: every scalar value is decoded to its source text,
numeric-looking or not.  Corroborated by the repository's `TestParseValues`
(`"foo: 7.3"` decodes to `{"foo": "7.3"}`). -/
def unmarshalStringMap (doc : List (GoStr × YamlScalar)) : List (GoStr × GoStr) :=
  doc.map (fun kv => (kv.1, kv.2.text))

/-- Model of `templates.Values`: the variables of one settings layer. -/
structure Values where
  values : List (GoStr × GoStr)
  deriving DecidableEq, Repr

/-- Model of `parseValues`, with the `yaml.Unmarshal` step modelled by its outcome.
The layer name is the base file name truncated at the first occurrence of
`".vars"` (`strings.Index`); the data decodes to a string-to-string map or
fails with the decode error. -/
def parseValues (name : GoStr) (data : Except GoStr (List (GoStr × YamlScalar))) :
    GoStr × Except GoStr Values :=
  let name1 := basePath name
  let name2 :=
    match stringsIndex name1 (gs ".vars") with
    | some extStart => name1.take extStart
    | none => name1
  match data with
  | .error e => (name2, .error e)
  | .ok doc => (name2, .ok ⟨unmarshalStringMap doc⟩)

/-- Model of `mergeValues`: start from an empty map, insert every binding of `first`,
then every binding of `second`, so that `second` overrides `first`. -/
def mergeValues (first second : Values) : Values :=
  let rv := first.values.foldl (fun acc kv => goSet acc kv.1 kv.2) []
  ⟨second.values.foldl (fun acc kv => goSet acc kv.1 kv.2) rv⟩

/-! ### templates: template set construction and expansion -/

/-- A parsed `text/template` template, abstracted to its execution
behaviour on a variable set: rendered output or an execution error. -/
structure Template where
  exec : Values → Except GoStr GoStr

/-- Model of `templates.internalTemplate`: per-context variable layers, parsed
templates keyed by base file name, and the source directory.  The
`sourceTests` field models the on-disk `tests/*.yaml` listing (base names)
that the Go code globs from `sourceDir` at expansion time. -/
structure internalTemplate where
  variables_ : List (GoStr × Values)
  templates : List (GoStr × Template)
  sourceDir : GoStr
  sourceTests : List GoStr

/-- Model of `internalTemplate.getVariables`: the layer for a context, or an empty
`Values` when the context has no layer. -/
def internalTemplate.getVariables (i : internalTemplate) (context : GoStr) : Values :=
  match goGet i.variables_ context with
  | some rv => rv
  | none => ⟨[]⟩

/-- One `*.vars` file of the source directory: its path and the outcome of
reading and YAML-decoding it (`readValues` folds open/read errors into the
same returned error). -/
structure VarsFileData where
  name : GoStr
  decoded : Except GoStr (List (GoStr × YamlScalar))

/-- One `*.yaml` template file of the source directory: its path and the
outcome of `template.New(base).Delims("<{[", "]}>").ParseFiles(name)`.  A
`text/template` parse error names the failing template file; the model
keeps the library's message and pairs it with the file when the error is
wrapped below. -/
structure TmplFileData where
  name : GoStr
  parse : Except GoStr Template

/-- The source directory as the `templates` package reads it: its path, the
`*.vars` matches, the `*.yaml` matches (both in sorted glob order) and the
`tests/*.yaml` base names. -/
structure SourceDir where
  dirName : GoStr
  varsFiles : List VarsFileData
  tmplFiles : List TmplFileData
  testFiles : List GoStr

/-- Errors of the `templates` package, by origin. -/
inductive TplErr where
  | varsErr (msg : GoStr)
  | tmplParseErr (file : GoStr) (msg : GoStr)
  | execErr (msg : GoStr)
  deriving DecidableEq

/-- The `*.vars` loop of `createInternalTemplate`: read each settings file,
stopping at the first failure; successful layers are keyed by context
name. -/
def loadVarsLoop : List VarsFileData → List (GoStr × Values) →
    List (GoStr × Values) × Option TplErr
  | [], acc => (acc, none)
  | f :: rest, acc =>
    match parseValues f.name f.decoded with
    | (_, .error e) => (acc, some (.varsErr e))
    | (context, .ok vals) => loadVarsLoop rest (goSet acc context vals)

/-- The `*.yaml` loop of `createInternalTemplate`: parse each template,
stopping at the first failure; the parse error names the failing file.
Successful templates are keyed by base file name. -/
def loadTmplsLoop : List TmplFileData → List (GoStr × Template) →
    List (GoStr × Template) × Option TplErr
  | [], acc => (acc, none)
  | f :: rest, acc =>
    match f.parse with
    | .error m => (acc, some (.tmplParseErr (basePath f.name) m))
    | .ok tmpl => loadTmplsLoop rest (goSet acc (basePath f.name) tmpl)

/-- The template map built from the files of `l` that parse, keyed by base
file name (specification helper for `loadTmplsLoop`). -/
def parsedTemplates (l : List TmplFileData) : List (GoStr × Template) :=
  l.filterMap (fun g =>
    match g.parse with
    | .ok t => some (basePath g.name, t)
    | .error _ => none)

/-- Model of `createInternalTemplate`: read all `*.vars` layers, then parse all
`*.yaml` templates; the first failure in either loop is returned together
with the structure built so far. -/
def createInternalTemplate (dir : SourceDir) : internalTemplate × Option TplErr :=
  let (vars, verr) := loadVarsLoop dir.varsFiles []
  match verr with
  | some e =>
    ({ variables_ := vars, templates := [], sourceDir := dir.dirName,
       sourceTests := dir.testFiles }, some e)
  | none =>
    let (tmpls, terr) := loadTmplsLoop dir.tmplFiles []
    ({ variables_ := vars, templates := tmpls, sourceDir := dir.dirName,
       sourceTests := dir.testFiles }, terr)

/-- The variable mapping used to render a context: the default layer merged
with the context layer, then the key `"context"` overwritten with the
context identifier (lines 397-398 of the expansion code). -/
def contextValues (context : GoStr) (data : internalTemplate) : Values :=
  let values := mergeValues (data.getVariables (gs "default")) (data.getVariables context)
  ⟨goSet values.values (gs "context") context⟩

/-- Model of `templates.TemplateData`: the result of expanding one context. -/
structure TemplateData where
  Context : GoStr
  Directory : GoStr
  Files : List GoStr
  deriving DecidableEq, Repr

/-- The filesystem as the expansion engine observes it: the set of
directories that exist under the temporary-directory roots. -/
structure FS where
  allocated : List GoStr
  deriving DecidableEq, Repr

/-- The length of the longest allocated name. -/
def maxLen (l : List GoStr) : Nat :=
  l.foldr (fun s m => max s.length m) 0

/-- Model of `var DefaultTempDirectory` of the `templates` package. -/
def DefaultTempDirectory : GoStr := gs "/tmp/prometheus-config-loader"

/-- Models `mktemp` (a wrapper around `ioutil.TempDir(base, leaf)`): create
and return a fresh directory `base/leaf<suffix>` whose name collides with
no existing directory.  The operating system's random unique suffix is
modelled deterministically by a suffix longer than every allocated name;
only the freshness guarantee of `TempDir` is relied upon. -/
def mktemp (fs : FS) (base leaf : GoStr) : GoStr × FS :=
  let nm := base ++ '/' :: leaf ++ List.replicate (maxLen fs.allocated + 1) 'x'
  (nm, ⟨nm :: fs.allocated⟩)

/-- The render loop of `expandDirectory`: each template file name is
recorded in `Files` before execution; the first execution error stops the
loop. -/
def expandLoop (templates : List (GoStr × Template)) (values : Values)
    (files : List GoStr) : List GoStr × Option GoStr :=
  match templates with
  | [] => (files, none)
  | (filename, tpl) :: rest =>
    match tpl.exec values with
    | .error e => (files ++ [filename], some e)
    | .ok _ => expandLoop rest values (files ++ [filename])

/-- Model of `expandDirectory`: compose the variables for the context, allocate a
fresh output directory, render every template into it, then copy the
`tests/*.yaml` fixtures verbatim, recording them under a `tests/` prefix.
File-creation and copy I/O failures are not modelled; template execution
failures abort with the partial `TemplateData` exactly as in the source. -/
def expandDirectory (context : GoStr) (data : internalTemplate) (fs : FS) :
    (TemplateData × Option TplErr) × FS :=
  let values := contextValues context data
  let (outDir, fs1) := mktemp fs DefaultTempDirectory (gs "tmp-" ++ context ++ gs "-")
  let (files1, err) := expandLoop data.templates values []
  match err with
  | some e => ((⟨context, outDir, files1⟩, some (.execErr e)), fs1)
  | none =>
    let files2 := files1 ++ data.sourceTests.map (fun f => gs "tests/" ++ f)
    ((⟨context, outDir, files2⟩, none), fs1)

/-- The per-context loop of `ExpandDirectory`: expand each context in turn,
collecting results keyed by context; the first expansion failure is
returned with no result map (Go returns `nil`). -/
def expandAllLoop (contexts : List GoStr) (data : internalTemplate) (fs : FS)
    (acc : List (GoStr × TemplateData)) :
    (Option (List (GoStr × TemplateData)) × Option TplErr) × FS :=
  match contexts with
  | [] => ((some acc, none), fs)
  | context :: rest =>
    let ((td, err), fs1) := expandDirectory context data fs
    match err with
    | some e => ((none, some e), fs1)
    | none => expandAllLoop rest data fs1 (goSet acc context td)

/-- Model of `ExpandDirectory`: build the internal template set, then expand every
context.  A construction failure returns the empty result map and the
error without touching the filesystem. -/
def ExpandDirectory (contexts : List GoStr) (dir : SourceDir) (fs : FS) :
    (Option (List (GoStr × TemplateData)) × Option TplErr) × FS :=
  let (tpls, err) := createInternalTemplate dir
  match err with
  | some e => ((some [], some e), fs)
  | none => expandAllLoop contexts tpls fs []

/-! ### Helper lemmas: the Go map model -/

theorem foldl_goSet_eq_append {V : Type} (l acc : List (GoStr × V)) :
    l.foldl (fun acc kv => goSet acc kv.1 kv.2) acc = acc ++ l := by
  induction l generalizing acc with
  | nil => simp
  | cons kv t ih =>
    rw [List.foldl_cons, ih]
    simp [goSet]

theorem mergeValues_values (A B : Values) :
    (mergeValues A B).values = A.values ++ B.values := by
  simp [mergeValues, foldl_goSet_eq_append]

theorem goGet_append {V : Type} (l₁ l₂ : List (GoStr × V)) (k : GoStr) :
    goGet (l₁ ++ l₂) k = (goGet l₂ k).or (goGet l₁ k) := by
  unfold goGet
  rw [List.reverse_append, List.find?_append]
  cases h : List.find? (fun kv => kv.1 == k) l₂.reverse <;> simp [h, Option.or]

theorem goGet_set_self {V : Type} (m : List (GoStr × V)) (k : GoStr) (v : V) :
    goGet (goSet m k v) k = some v := by
  simp [goGet, goSet, List.reverse_append, List.find?_cons]

/-- Claim C3: for every context identifier and every pair of default and
per-context variable layers — including layers that themselves bind the key
`"context"` — the variable mapping composed for rendering that context
(`contextValues`, the first step of `expandDirectory`) maps the key
`"context"` to that context's own identifier. -/
theorem claim3 (context : GoStr) (data : internalTemplate) :
    goGet (contextValues context data).values (gs "context") = some context := by
  unfold contextValues
  exact goGet_set_self _ _ _

/-- An internal template set whose default layer and `ctx1` layer both try
to bind the key `"context"`. -/
def spoofData : internalTemplate :=
  { variables_ := [(gs "default", ⟨[(gs "context", gs "evil")]⟩),
                   (gs "ctx1", ⟨[(gs "context", gs "also-evil")]⟩)],
    templates := [], sourceDir := gs "testdata/spoof", sourceTests := [] }

/-- Claim C3 witness: even when both layers bind `"context"`, rendering of
context `ctx1` observes `ctx1`. -/
theorem claim3_witness :
    goGet (contextValues (gs "ctx1") spoofData).values (gs "context") = some (gs "ctx1") :=
  claim3 (gs "ctx1") spoofData

/-- Claim C5: `mergeValues` is the right-biased merge: a key bound in the
second argument gets its value from there, otherwise from the first
argument, and no other key is bound; merging a set with itself is the
identity on lookups. -/
theorem claim5 (A B : Values) (k : GoStr) :
    (goGet (mergeValues A B).values k = (goGet B.values k).or (goGet A.values k)) ∧
    (goGet (mergeValues A B).values k = none ↔
      (goGet A.values k = none ∧ goGet B.values k = none)) ∧
    goGet (mergeValues A A).values k = goGet A.values k := by
  refine ⟨?_, ?_, ?_⟩
  · rw [mergeValues_values]
    exact goGet_append A.values B.values k
  · rw [mergeValues_values, goGet_append]
    cases hB : goGet B.values k <;> cases hA : goGet A.values k <;> simp [hA, hB]
  · rw [mergeValues_values, goGet_append]
    cases hA : goGet A.values k <;> simp [hA]

/-- Claim C5 witness: the merge properties at two concrete one-key layers
with the same key. -/
theorem claim5_witness :
    (goGet (mergeValues ⟨[(gs "a", gs "1")]⟩ ⟨[(gs "a", gs "2")]⟩).values (gs "a") =
      (goGet (⟨[(gs "a", gs "2")]⟩ : Values).values (gs "a")).or
        (goGet (⟨[(gs "a", gs "1")]⟩ : Values).values (gs "a"))) ∧
    (goGet (mergeValues ⟨[(gs "a", gs "1")]⟩ ⟨[(gs "a", gs "2")]⟩).values (gs "a") = none ↔
      (goGet (⟨[(gs "a", gs "1")]⟩ : Values).values (gs "a") = none ∧
        goGet (⟨[(gs "a", gs "2")]⟩ : Values).values (gs "a") = none)) ∧
    goGet (mergeValues ⟨[(gs "a", gs "1")]⟩ ⟨[(gs "a", gs "1")]⟩).values (gs "a") =
      goGet (⟨[(gs "a", gs "1")]⟩ : Values).values (gs "a") :=
  claim5 ⟨[(gs "a", gs "1")]⟩ ⟨[(gs "a", gs "2")]⟩ (gs "a")

/-! ### Helper lemmas: paths and substring search -/

theorem takeWhile_ne_slash (l₁ l₂ : GoStr) (h : ∀ a ∈ l₁, a ≠ '/') :
    List.takeWhile (fun c => c ≠ '/') (l₁ ++ '/' :: l₂) = l₁ := by
  induction l₁ with
  | nil => simp [List.takeWhile_cons]
  | cons a t ih =>
    have ha : a ≠ '/' := h a (by simp)
    rw [List.cons_append, List.takeWhile_cons, if_pos (by simp [ha]),
      ih (fun b hb => h b (by simp [hb]))]

theorem dropWhile_slash_head (c : Char) (t : GoStr) (hc : c ≠ '/') :
    List.dropWhile (fun c => c = '/') (c :: t) = c :: t := by
  simp [List.dropWhile_cons, hc]

theorem basePath_concat (p q : GoStr) (hne : q ≠ []) (hq : ∀ c ∈ q, c ≠ '/') :
    basePath (p ++ '/' :: q) = q := by
  obtain ⟨c, t, hqr⟩ : ∃ c t, q.reverse = c :: t := by
    cases hr : q.reverse with
    | nil => exact absurd (by simpa using hr) hne
    | cons c t => exact ⟨c, t, rfl⟩
  have hcq : c ∈ q := List.mem_reverse.mp (hqr ▸ List.mem_cons_self c t)
  have hrev : (p ++ '/' :: q).reverse = q.reverse ++ '/' :: p.reverse := by simp
  have hdrop : dropTrailingSlashes (p ++ '/' :: q) = p ++ '/' :: q := by
    have h1 : List.dropWhile (fun c => c = '/') ((p ++ '/' :: q).reverse)
        = (p ++ '/' :: q).reverse := by
      rw [hrev, hqr, List.cons_append]
      rw [dropWhile_slash_head c _ (hq c hcq)]
    unfold dropTrailingSlashes
    rw [h1, List.reverse_reverse]
  have hafter : afterLastSlash (p ++ '/' :: q) = q := by
    unfold afterLastSlash
    rw [hrev, takeWhile_ne_slash q.reverse p.reverse
      (fun a ha => hq a (List.mem_reverse.mp ha)), List.reverse_reverse]
  unfold basePath
  rw [if_neg (by simp : ¬(p ++ '/' :: q = []))]
  simp only [hdrop, hafter]
  exact if_neg hne

theorem stringsIndexAux_boundary (sub stem : GoStr) :
    ∀ i, (∀ j, j < stem.length → ¬(sub.isPrefixOf ((stem ++ sub).drop j) = true)) →
      stringsIndexAux sub (stem ++ sub) i = some (i + stem.length) := by
  induction stem with
  | nil =>
    intro i _
    cases hs : sub with
    | nil => simp [stringsIndexAux, List.isPrefixOf]
    | cons c t => simp [stringsIndexAux, List.isPrefixOf_iff_prefix]
  | cons a stem' ih =>
    intro i h
    have h0 : sub.isPrefixOf (a :: (stem' ++ sub)) = false := by
      cases hP : sub.isPrefixOf (a :: (stem' ++ sub)) with
      | false => rfl
      | true =>
        have hh := h 0 (by simp)
        simp only [List.drop_zero, List.cons_append] at hh
        exact absurd hP hh
    have h' : ∀ j, j < stem'.length → ¬(sub.isPrefixOf ((stem' ++ sub).drop j) = true) := by
      intro j hj
      have hh := h (j + 1) (by simp only [List.length_cons]; omega)
      simpa [List.cons_append, List.drop_succ_cons] using hh
    rw [List.cons_append]
    simp only [stringsIndexAux, h0, Bool.false_eq_true, if_false]
    rw [ih (i + 1) h']
    congr 1
    simp only [List.length_cons]
    omega

/-- Claim C4: for every file path whose base name ends in `".yaml"`, the
derived document name is `"{target}-{stem}-rules"` where the stem is the
base name minus the trailing five-character `".yaml"` with every remaining
dot replaced by a hyphen; directory components are ignored, and in
particular `/tmp/blah.blah.yaml` with target `prom` derives
`prom-blah-blah-rules`. -/
theorem claim4 :
    (∀ fileName target stem : GoStr,
      basePath fileName = stem ++ gs ".yaml" →
      buildRuleName fileName target =
        some (target ++ gs "-" ++ replaceAllDots stem ++ gs "-rules")) ∧
    buildRuleName (gs "/tmp/blah.blah.yaml") (gs "prom") = some (gs "prom-blah-blah-rules") := by
  constructor
  · intro fileName target stem h
    have hy : (gs ".yaml").length = 5 := rfl
    have hlen : (stem ++ gs ".yaml").length = stem.length + 5 := by
      rw [List.length_append, hy]
    have ht : (stem ++ gs ".yaml").take ((stem ++ gs ".yaml").length - 5) = stem := by
      rw [hlen, Nat.add_sub_cancel]
      exact List.take_left stem (gs ".yaml")
    simp only [buildRuleName, h, ht]
    rw [if_pos (by omega)]
    have hdash : gs "-" = ['-'] := rfl
    rw [hdash]
    simp
  · decide

/-- Claim C4 witness: `blah.yaml` with target `prom` derives
`prom-blah-rules` via the general statement. -/
theorem claim4_witness :
    basePath (gs "blah.yaml") = gs "blah" ++ gs ".yaml" ∧
    buildRuleName (gs "blah.yaml") (gs "prom") =
      some (gs "prom" ++ gs "-" ++ replaceAllDots (gs "blah") ++ gs "-rules") :=
  ⟨by decide, claim4.1 (gs "blah.yaml") (gs "prom") (gs "blah") (by decide)⟩

/-- Claim C9 counterexample: the base name `x.vars.vars` ends in the
reserved `".vars"` suffix, but the layer name computed by `parseValues` is
`x` (truncation at the first occurrence of `".vars"`), not the
suffix-stripped `x.vars` the claim requires. -/
theorem claim9_counterexample :
    (parseValues (gs "x.vars.vars") (.ok [])).1 = gs "x" ∧
    ¬((parseValues (gs "x.vars.vars") (.ok [])).1 = gs "x.vars") := by
  constructor
  · decide
  · decide

/-- Claim C9 (amended): the layer name is the base name truncated at the
first occurrence of `".vars"`; when the trailing suffix is the only
occurrence — in particular for every base name of the form
`stem ++ ".vars"` with no occurrence of `".vars"` starting inside `stem` —
this coincides with stripping the suffix. -/
theorem claim9_amended (name stem : GoStr) (data : Except GoStr (List (GoStr × YamlScalar)))
    (hbase : basePath name = stem ++ gs ".vars")
    (hfirst : ∀ j, j < stem.length →
      ¬((gs ".vars").isPrefixOf ((stem ++ gs ".vars").drop j) = true)) :
    (parseValues name data).1 = stem := by
  have hidx : stringsIndex (stem ++ gs ".vars") (gs ".vars") = some stem.length := by
    have h := stringsIndexAux_boundary (gs ".vars") stem 0 hfirst
    simpa [stringsIndex] using h
  have htake : (stem ++ gs ".vars").take stem.length = stem := List.take_left stem (gs ".vars")
  cases data <;> simp [parseValues, hbase, hidx, htake]

/-- Claim C9 witness: for the base name `context1.vars` the amended
statement yields the layer name `context1`. -/
theorem claim9_amended_witness :
    basePath (gs "context1.vars") = gs "context1" ++ gs ".vars" ∧
    (parseValues (gs "context1.vars") (.ok [])).1 = gs "context1" :=
  ⟨by decide, claim9_amended (gs "context1.vars") (gs "context1") (.ok []) (by decide) (by decide)⟩

theorem buildRuleName_isSome_of_suffix (fileName target : GoStr)
    (h : (gs ".yaml").isSuffixOf (basePath fileName) = true) :
    (buildRuleName fileName target).isSome = true := by
  have hsuf : gs ".yaml" <:+ basePath fileName := List.isSuffixOf_iff_suffix.mp h
  have hlen : 5 ≤ (basePath fileName).length := hsuf.length_le
  simp [buildRuleName, hlen]

/-- Claim C10: `buildRuleName` is total exactly under the precondition that
the base name is at least five characters long: every path whose base name
ends in `".yaml"` — as every `"*.yaml"` glob match does — satisfies it and
is mapped to `some` name, while a shorter base name reaches the
out-of-range slice (the `none` branch of the embedding). -/
theorem claim10 :
    (∀ fileName target : GoStr,
      (gs ".yaml").isSuffixOf (basePath fileName) = true →
      (buildRuleName fileName target).isSome = true) ∧
    (∀ dir w : GoStr, '/' ∉ w →
      (gs ".yaml").isSuffixOf (basePath (dir ++ '/' :: (w ++ gs ".yaml"))) = true) ∧
    (∀ fileName target : GoStr,
      (basePath fileName).length < 5 → buildRuleName fileName target = none) := by
  refine ⟨buildRuleName_isSome_of_suffix, ?_, ?_⟩
  · intro dir w hw
    have hyaml : gs ".yaml" = ['.', 'y', 'a', 'm', 'l'] := rfl
    have hbase : basePath (dir ++ '/' :: (w ++ gs ".yaml")) = w ++ gs ".yaml" := by
      apply basePath_concat
      · simp [hyaml]
      · intro c hc
        rcases List.mem_append.mp hc with h1 | h2
        · exact fun hEq => hw (hEq ▸ h1)
        · rw [hyaml] at h2
          simp only [List.mem_cons, List.not_mem_nil, or_false] at h2
          rcases h2 with rfl | rfl | rfl | rfl | rfl <;> decide
    rw [hbase, List.isSuffixOf_iff_suffix]
    exact List.suffix_append w (gs ".yaml")
  · intro fileName target hshort
    simp [buildRuleName]
    omega

/-- Claim C10 witness: `dir/x.yaml` (a glob-shaped path) has a `".yaml"`
base-name suffix and a defined derived name, while the short base name
`ab` reaches the out-of-range branch. -/
theorem claim10_witness :
    ((gs ".yaml").isSuffixOf (basePath (gs "dir/x.yaml")) = true ∧
      (buildRuleName (gs "dir/x.yaml") (gs "prom")).isSome = true) ∧
    (gs ".yaml").isSuffixOf (basePath (gs "dir" ++ '/' :: (gs "x" ++ gs ".yaml"))) = true ∧
    ((basePath (gs "dir/ab")).length < 5 ∧ buildRuleName (gs "dir/ab") (gs "prom") = none) :=
  ⟨⟨by decide, claim10.1 (gs "dir/x.yaml") (gs "prom") (by decide)⟩,
    claim10.2.1 (gs "dir") (gs "x") (by decide),
    ⟨by decide, claim10.2.2 (gs "dir/ab") (gs "prom") (by decide)⟩⟩

/-! ### Claim C1: record/alert mutual exclusion is not checked -/

/-- A rule with both `record` and `alert` set. -/
def bothRule : Rule :=
  { record := gs "job:up:sum", alert := gs "JobDown", expr := gs "up == 0",
    for_ := gs "", labels := [], annotations := [] }

/-- A rule with neither `record` nor `alert` set. -/
def neitherRule : Rule :=
  { record := gs "", alert := gs "", expr := gs "up == 0",
    for_ := gs "", labels := [], annotations := [] }

/-- A rule file whose only rule has both `record` and `alert` set. -/
def bothFile : RuleFile :=
  ⟨gs "both.yaml", .ok ⟨[⟨gs "g1", gs "", [bothRule]⟩]⟩⟩

/-- A rule file whose only rule has neither `record` nor `alert` set. -/
def neitherFile : RuleFile :=
  ⟨gs "neither.yaml", .ok ⟨[⟨gs "g1", gs "", [neitherRule]⟩]⟩⟩

/-- Claim C1 counterexample: a decoded rule with both `record` and `alert`
set — and likewise one with neither set — is NOT rejected: `ParseRuleSpec`
accepts the spec and `LoadConfigurationFile` returns a rule document with
no error, contradicting the claimed parse-time rejection. -/
theorem claim1_counterexample :
    (ParseRuleSpec bothFile.content).isOk = true ∧
    (ParseRuleSpec neitherFile.content).isOk = true ∧
    (LoadConfigurationFile bothFile (gs "ns") (gs "prom")).any (fun r => r.isOk) = true ∧
    (LoadConfigurationFile neitherFile (gs "ns") (gs "prom")).any (fun r => r.isOk) = true := by
  refine ⟨rfl, rfl, rfl, rfl⟩

/-- Claim C1 (amended): `ParseRuleSpec` rejects only a YAML decode failure
or a spec with zero groups; it performs no record/alert validation — every
decoded spec with at least one group is accepted, each rule's `record` and
`alert` fields copied verbatim, including rules with both or neither
set. -/
theorem claim1_amended :
    (∀ e : GoStr, ParseRuleSpec (.error e) = .error e) ∧
    ParseRuleSpec (.ok ⟨[]⟩) = .error (gs "No groups found") ∧
    (∀ rg : RuleGroups, rg.groups.length ≠ 0 →
      ∃ spec, ParseRuleSpec (.ok rg) = .ok spec ∧
        spec.groups.map (fun g => g.rules.map (fun r => (r.record, r.alert))) =
          rg.groups.map (fun g => g.rules.map (fun r => (r.record, r.alert)))) := by
  refine ⟨fun e => rfl, rfl, fun rg hne => ?_⟩
  simp only [ParseRuleSpec]
  rw [if_neg hne]
  refine ⟨_, rfl, ?_⟩
  simp only [List.map_map, Function.comp_def]

/-- Claim C1 amended witness: the both-set rule file is accepted with its
`record`/`alert` pair preserved. -/
theorem claim1_amended_witness :
    (⟨[⟨gs "g1", gs "", [bothRule]⟩]⟩ : RuleGroups).groups.length ≠ 0 ∧
    (∃ spec, ParseRuleSpec (.ok ⟨[⟨gs "g1", gs "", [bothRule]⟩]⟩) = .ok spec ∧
      spec.groups.map (fun g => g.rules.map (fun r => (r.record, r.alert))) =
        (⟨[⟨gs "g1", gs "", [bothRule]⟩]⟩ : RuleGroups).groups.map
          (fun g => g.rules.map (fun r => (r.record, r.alert)))) :=
  ⟨by decide, claim1_amended.2.2 ⟨[⟨gs "g1", gs "", [bothRule]⟩]⟩ (by decide)⟩

/-! ### Claim C2: fail-soft directory scanning -/

/-- The rule documents of the files that load successfully, in scan order. -/
def fileSuccesses (files : List RuleFile) (nspace prometheus : GoStr) : List PrometheusRule :=
  files.filterMap (fun f =>
    match LoadConfigurationFile f nspace prometheus with
    | some (.ok r) => some r
    | _ => none)

/-- The per-file load errors, in scan order. -/
def fileErrors (files : List RuleFile) (nspace prometheus : GoStr) : List GoStr :=
  files.filterMap (fun f =>
    match LoadConfigurationFile f nspace prometheus with
    | some (.error e) => some e
    | _ => none)

theorem LoadConfigurationFile_ne_none (f : RuleFile) (nspace prometheus : GoStr)
    (h : (gs ".yaml").isSuffixOf (basePath f.name) = true) :
    LoadConfigurationFile f nspace prometheus ≠ none := by
  unfold LoadConfigurationFile
  cases hps : ParseRuleSpec f.content with
  | error e => simp
  | ok spec =>
    have hbn := buildRuleName_isSome_of_suffix f.name prometheus h
    cases hb : buildRuleName f.name prometheus with
    | none => rw [hb] at hbn; simp at hbn
    | some nm => simp [hb]

theorem loadDirLoop_spec (nspace prometheus : GoStr) :
    ∀ (files : List RuleFile) (items : List PrometheusRule) (errSeen : Option GoStr),
      (∀ f ∈ files, LoadConfigurationFile f nspace prometheus ≠ none) →
      loadDirLoop files nspace prometheus items errSeen =
        some (items ++ fileSuccesses files nspace prometheus,
          ((fileErrors files nspace prometheus).getLast?).or errSeen) := by
  intro files
  induction files with
  | nil =>
    intro items errSeen _
    simp [loadDirLoop, fileSuccesses, fileErrors, Option.or]
  | cons f rest ih =>
    intro items errSeen hnp
    have hf := hnp f (by simp)
    cases hLCF : LoadConfigurationFile f nspace prometheus with
    | none => exact absurd hLCF hf
    | some res =>
      cases res with
      | error e =>
        rw [loadDirLoop]
        simp only [hLCF]
        rw [ih items (some e) (fun g hg => hnp g (by simp [hg]))]
        have hsucc : fileSuccesses (f :: rest) nspace prometheus
            = fileSuccesses rest nspace prometheus := by
          simp [fileSuccesses, List.filterMap_cons, hLCF]
        have herr : fileErrors (f :: rest) nspace prometheus
            = e :: fileErrors rest nspace prometheus := by
          simp [fileErrors, List.filterMap_cons, hLCF]
        rw [hsucc, herr, List.getLast?_cons]
        cases hL : (fileErrors rest nspace prometheus).getLast? <;> simp [hL, Option.or]
      | ok r =>
        rw [loadDirLoop]
        simp only [hLCF]
        rw [ih (items ++ [r]) errSeen (fun g hg => hnp g (by simp [hg]))]
        have hsucc : fileSuccesses (f :: rest) nspace prometheus
            = r :: fileSuccesses rest nspace prometheus := by
          simp [fileSuccesses, List.filterMap_cons, hLCF]
        have herr : fileErrors (f :: rest) nspace prometheus
            = fileErrors rest nspace prometheus := by
          simp [fileErrors, List.filterMap_cons, hLCF]
        rw [hsucc, herr, List.append_assoc, List.singleton_append]

/-- Claim C2: when the glob-matched rule files of a directory include both
well-formed and malformed ones, `LoadConfigurationDirectory` keeps
scanning past each per-file failure, returns the document of every
well-formed file in scan order, and returns as its error exactly the most
recent per-file failure in scan order (non-nil because at least one file
failed). -/
theorem claim2 (files : List RuleFile) (nspace prometheus : GoStr)
    (hglob : ∀ f ∈ files, (gs ".yaml").isSuffixOf (basePath f.name) = true)
    (hfail : ∃ f ∈ files, ∃ e, LoadConfigurationFile f nspace prometheus = some (.error e))
    (_hok : ∃ f ∈ files, ∃ r, LoadConfigurationFile f nspace prometheus = some (.ok r)) :
    ∃ e, (fileErrors files nspace prometheus).getLast? = some e ∧
      LoadConfigurationDirectory files nspace prometheus =
        some (some (fileSuccesses files nspace prometheus), some e) := by
  obtain ⟨f0, hf0mem, e0, hf0⟩ := hfail
  have hne : files ≠ [] := List.ne_nil_of_mem hf0mem
  have hnp : ∀ f ∈ files, LoadConfigurationFile f nspace prometheus ≠ none :=
    fun f hf => LoadConfigurationFile_ne_none f nspace prometheus (hglob f hf)
  have herrmem : e0 ∈ fileErrors files nspace prometheus := by
    rw [fileErrors, List.mem_filterMap]
    exact ⟨f0, hf0mem, by rw [hf0]⟩
  have herrne : fileErrors files nspace prometheus ≠ [] := List.ne_nil_of_mem herrmem
  obtain ⟨e, hlast⟩ : ∃ e, (fileErrors files nspace prometheus).getLast? = some e := by
    cases hL : (fileErrors files nspace prometheus).getLast? with
    | none => exact absurd (List.getLast?_eq_none_iff.mp hL) herrne
    | some e => exact ⟨e, rfl⟩
  refine ⟨e, hlast, ?_⟩
  unfold LoadConfigurationDirectory
  rw [if_neg (by simp [List.length_eq_zero, hne])]
  rw [loadDirLoop_spec nspace prometheus files [] none hnp]
  simp [hlast, Option.or]

/-- A well-formed recording rule used by the concrete directory below. -/
def recordRule : Rule :=
  { record := gs "job:up:sum", alert := gs "", expr := gs "sum(up)",
    for_ := gs "", labels := [], annotations := [] }

/-- A well-formed rule file. -/
def goodFile1 : RuleFile := ⟨gs "rule1.yaml", .ok ⟨[⟨gs "g1", gs "", [recordRule]⟩]⟩⟩

/-- A rule file whose YAML does not decode. -/
def badFile : RuleFile := ⟨gs "broken.yaml", .error (gs "yaml: unmarshal errors")⟩

/-- Another well-formed rule file. -/
def goodFile2 : RuleFile := ⟨gs "rule2.yaml", .ok ⟨[⟨gs "g2", gs "30s", [recordRule]⟩]⟩⟩

/-- A directory with two well-formed files and one malformed file, in
sorted glob (scan) order: `broken.yaml`, `rule1.yaml`, `rule2.yaml`. -/
def exDirFiles : List RuleFile := [badFile, goodFile1, goodFile2]

/-- Claim C2 witness: on a directory of two well-formed files and one
malformed file, the loader returns both documents plus the malformed
file's error. -/
theorem claim2_witness :
    (∃ e, (fileErrors exDirFiles (gs "ns") (gs "prom")).getLast? = some e ∧
      LoadConfigurationDirectory exDirFiles (gs "ns") (gs "prom") =
        some (some (fileSuccesses exDirFiles (gs "ns") (gs "prom")), some e)) ∧
    (fileSuccesses exDirFiles (gs "ns") (gs "prom")).length = 2 :=
  ⟨claim2 exDirFiles (gs "ns") (gs "prom") (by decide)
      ⟨badFile, by simp [exDirFiles], gs "yaml: unmarshal errors", rfl⟩
      ⟨goodFile1, by simp [exDirFiles], _, rfl⟩,
    by decide⟩

/-! ### Claim C8: variable values decode as text -/

/-- Claim C8: every value of a successfully decoded variable file is the
source text of a scalar bound to its key in the YAML document —
numeric-looking scalars included — and in particular the mapping
`foo: 7.3` decodes to the text value `"7.3"` under key `foo`. -/
theorem claim8 :
    (∀ (name : GoStr) (doc : List (GoStr × YamlScalar)) (vals : Values),
      (parseValues name (.ok doc)).2 = .ok vals →
      ∀ kv ∈ vals.values, ∃ sc, (kv.1, sc) ∈ doc ∧ kv.2 = sc.text) ∧
    (parseValues (gs "test.vars") (.ok [(gs "foo", YamlScalar.num (gs "7.3"))])).2 =
      .ok ⟨[(gs "foo", gs "7.3")]⟩ := by
  constructor
  · intro name doc vals hok kv hmem
    have h2 : (parseValues name (.ok doc)).2 = .ok ⟨unmarshalStringMap doc⟩ := rfl
    rw [h2] at hok
    obtain rfl := (Except.ok.inj hok).symm
    simp only [unmarshalStringMap] at hmem
    obtain ⟨a, ha, hfa⟩ := List.mem_map.mp hmem
    refine ⟨a.2, ?_, ?_⟩
    · have h1 : kv.1 = a.1 := by rw [← hfa]
      rw [h1]
      exact ha
    · rw [← hfa]
  · rfl

/-- Claim C8 witness: the general statement applied to the decoded mapping
`foo: 7.3`. -/
theorem claim8_witness :
    (parseValues (gs "test.vars") (.ok [(gs "foo", YamlScalar.num (gs "7.3"))])).2 =
      .ok ⟨[(gs "foo", gs "7.3")]⟩ ∧
    (∃ sc, (gs "foo", sc) ∈ [(gs "foo", YamlScalar.num (gs "7.3"))] ∧ gs "7.3" = sc.text) :=
  ⟨rfl,
    claim8.1 (gs "test.vars") [(gs "foo", YamlScalar.num (gs "7.3"))]
      ⟨[(gs "foo", gs "7.3")]⟩ rfl (gs "foo", gs "7.3") (by simp)⟩

/-! ### Claim C6: template-set construction on a malformed template -/

/-- A template whose execution always succeeds. -/
def okTemplate : Template := ⟨fun _ => .ok (gs "rendered")⟩

/-- A template file that parses. -/
def exGoodTmpl : TmplFileData := ⟨gs "alerts.yaml", .ok okTemplate⟩

/-- The parse error message of the malformed template below, as
`text/template` produces it (the library names the failing file). -/
def exBadMsg : GoStr := gs "template: zz-broken.yaml:1: unexpected EOF"

/-- A template file that fails to parse. -/
def exBadTmpl : TmplFileData := ⟨gs "zz-broken.yaml", .error exBadMsg⟩

/-- A source directory whose second template file in sorted glob order
(`alerts.yaml` before `zz-broken.yaml`) is malformed. -/
def exBrokenDir : SourceDir := ⟨gs "testdata/dir", [], [exGoodTmpl, exBadTmpl], []⟩

/-- Claim C6 counterexample: on a directory whose second of two template
files is malformed, `createInternalTemplate` does return an error, but it
also returns the partially built template set — the one template parsed
before the failure — so a partial template set IS returned to the caller,
contrary to the claim. -/
theorem claim6_counterexample :
    ((createInternalTemplate exBrokenDir).2).isSome = true ∧
    ((createInternalTemplate exBrokenDir).1).templates.length = 1 :=
  ⟨rfl, rfl⟩

theorem loadTmplsLoop_firstError :
    ∀ (pre : List TmplFileData) (f : TmplFileData) (post : List TmplFileData) (m : GoStr)
      (acc : List (GoStr × Template)),
      (∀ g ∈ pre, ∃ t, g.parse = .ok t) →
      f.parse = .error m →
      loadTmplsLoop (pre ++ f :: post) acc =
        (acc ++ parsedTemplates pre, some (.tmplParseErr (basePath f.name) m)) := by
  intro pre
  induction pre with
  | nil =>
    intro f post m acc _ hf
    simp [loadTmplsLoop, hf, parsedTemplates]
  | cons g pre' ih =>
    intro f post m acc hpre hf
    obtain ⟨t, hg⟩ := hpre g (by simp)
    rw [List.cons_append, loadTmplsLoop]
    simp only [hg]
    rw [ih f post m (goSet acc (basePath g.name) t)
      (fun g' hg' => hpre g' (by simp [hg'])) hf]
    simp [goSet, parsedTemplates, List.filterMap_cons, hg, List.append_assoc]

/-- Claim C6 (amended): a malformed template aborts the parse at the first
failing file, and the returned error names that file; however the
partially built template set (the templates parsed before the failure) is
returned alongside the error, and it is the caller, `ExpandDirectory`,
that discards it and propagates the error so that no expansion ever uses a
partial set. -/
theorem claim6_amended (dir : SourceDir) (pre : List TmplFileData) (f : TmplFileData)
    (post : List TmplFileData) (m : GoStr)
    (hvars : (loadVarsLoop dir.varsFiles []).2 = none)
    (hsplit : dir.tmplFiles = pre ++ f :: post)
    (hpre : ∀ g ∈ pre, ∃ t, g.parse = .ok t)
    (hf : f.parse = .error m) :
    (createInternalTemplate dir).2 = some (.tmplParseErr (basePath f.name) m) ∧
    (createInternalTemplate dir).1.templates = parsedTemplates pre ∧
    ∀ (contexts : List GoStr) (fs : FS),
      ExpandDirectory contexts dir fs =
        ((some [], some (.tmplParseErr (basePath f.name) m)), fs) := by
  rcases hval : loadVarsLoop dir.varsFiles [] with ⟨vars, verr⟩
  have hverr : verr = none := by rw [hval] at hvars; exact hvars
  subst hverr
  have hloop := loadTmplsLoop_firstError pre f post m [] hpre hf
  have hcit : createInternalTemplate dir =
      ({ variables_ := vars, templates := parsedTemplates pre,
         sourceDir := dir.dirName, sourceTests := dir.testFiles },
        some (.tmplParseErr (basePath f.name) m)) := by
    unfold createInternalTemplate
    rw [hval, hsplit, hloop]
    simp
  refine ⟨by rw [hcit], by rw [hcit], ?_⟩
  intro contexts fs
  unfold ExpandDirectory
  rw [hcit]

/-- Claim C6 amended witness: the amended statement at the concrete broken
directory. -/
theorem claim6_amended_witness :
    (createInternalTemplate exBrokenDir).2
        = some (.tmplParseErr (basePath exBadTmpl.name) exBadMsg) ∧
    (createInternalTemplate exBrokenDir).1.templates = parsedTemplates [exGoodTmpl] ∧
    ExpandDirectory [gs "c1"] exBrokenDir ⟨[]⟩
        = ((some [], some (.tmplParseErr (basePath exBadTmpl.name) exBadMsg)), ⟨[]⟩) := by
  have h := claim6_amended exBrokenDir [exGoodTmpl] exBadTmpl [] exBadMsg rfl rfl
    (by intro g hg
        simp only [List.mem_singleton] at hg
        subst hg
        exact ⟨okTemplate, rfl⟩) rfl
  exact ⟨h.1, h.2.1, h.2.2 [gs "c1"] ⟨[]⟩⟩

/-! ### Claim C7: output directories are fresh and pairwise distinct -/

theorem length_le_maxLen (l : List GoStr) (s : GoStr) (h : s ∈ l) : s.length ≤ maxLen l := by
  induction l with
  | nil => cases h
  | cons a t ih =>
    have hm : maxLen (a :: t) = max a.length (maxLen t) := rfl
    rcases List.mem_cons.mp h with rfl | h2
    · rw [hm]
      exact Nat.le_max_left _ _
    · rw [hm]
      exact le_trans (ih h2) (Nat.le_max_right _ _)

theorem mktemp_fresh (fs : FS) (base leaf : GoStr) :
    (mktemp fs base leaf).1 ∉ fs.allocated ∧
    (mktemp fs base leaf).2.allocated = (mktemp fs base leaf).1 :: fs.allocated := by
  constructor
  · intro hmem
    have hle := length_le_maxLen fs.allocated _ hmem
    simp only [mktemp, List.length_append, List.length_cons,
      List.length_replicate] at hle
    omega
  · rfl

theorem expandDirectory_dir (context : GoStr) (data : internalTemplate) (fs : FS) :
    (expandDirectory context data fs).1.1.Directory ∉ fs.allocated ∧
    (expandDirectory context data fs).2.allocated
      = (expandDirectory context data fs).1.1.Directory :: fs.allocated := by
  have hm := mktemp_fresh fs DefaultTempDirectory (gs "tmp-" ++ context ++ gs "-")
  rcases hEL : expandLoop data.templates (contextValues context data) [] with ⟨files1, err⟩
  cases err with
  | none =>
    constructor
    · simpa [expandDirectory, hEL] using hm.1
    · simpa [expandDirectory, hEL] using hm.2
  | some e =>
    constructor
    · simpa [expandDirectory, hEL] using hm.1
    · simpa [expandDirectory, hEL] using hm.2

theorem expandAllLoop_spec :
    ∀ (contexts : List GoStr) (data : internalTemplate) (fs : FS)
      (acc res : List (GoStr × TemplateData)) (fs' : FS),
      expandAllLoop contexts data fs acc = ((some res, none), fs') →
      ∃ newPart, res = acc ++ newPart ∧
        newPart.Pairwise (fun a b => a.2.Directory ≠ b.2.Directory) ∧
        (∀ p ∈ newPart, p.2.Directory ∉ fs.allocated ∧ p.2.Directory ∈ fs'.allocated) ∧
        (∀ s ∈ fs.allocated, s ∈ fs'.allocated) := by
  intro contexts
  induction contexts with
  | nil =>
    intro data fs acc res fs' h
    simp only [expandAllLoop, Prod.mk.injEq, Option.some.injEq, and_true, true_and] at h
    obtain ⟨hres, hfs⟩ := h
    subst hres
    subst hfs
    exact ⟨[], by simp, by simp, by simp, fun s hs => hs⟩
  | cons c rest ih =>
    intro data fs acc res fs' h
    rcases hed : expandDirectory c data fs with ⟨⟨td, err⟩, fs1⟩
    have hdd := expandDirectory_dir c data fs
    rw [hed] at hdd
    simp only [expandAllLoop, hed] at h
    cases err with
    | some e => simp at h
    | none =>
      obtain ⟨newPart', hres, hpw, hmem, hmono⟩ := ih data fs1 (goSet acc c td) res fs' h
      refine ⟨(c, td) :: newPart', ?_, ?_, ?_, ?_⟩
      · rw [hres]
        simp [goSet, List.append_assoc]
      · rw [List.pairwise_cons]
        refine ⟨?_, hpw⟩
        intro b hb hEq
        apply (hmem b hb).1
        rw [hdd.2, ← hEq]
        exact List.mem_cons_self _ _
      · intro p hp
        rcases List.mem_cons.mp hp with rfl | hp2
        · exact ⟨hdd.1, hmono _ (by rw [hdd.2]; exact List.mem_cons_self _ _)⟩
        · refine ⟨?_, (hmem p hp2).2⟩
          intro hmem0
          apply (hmem p hp2).1
          rw [hdd.2]
          exact List.mem_cons_of_mem _ hmem0
      · intro s hs
        exact hmono s (by rw [hdd.2]; exact List.mem_cons_of_mem _ hs)

/-- Claim C7: in any run, the output directories allocated by a successful
`ExpandDirectory` are pairwise distinct across its contexts (repeated
context names included), none of them existed before the run, and all are
recorded in the final filesystem state — so repeated invocations threaded
through that state can never reuse one of them. -/
theorem claim7 (contexts : List GoStr) (dir : SourceDir) (fs : FS)
    (res : List (GoStr × TemplateData)) (fs' : FS)
    (h : ExpandDirectory contexts dir fs = ((some res, none), fs')) :
    res.Pairwise (fun a b => a.2.Directory ≠ b.2.Directory) ∧
    ∀ p ∈ res, p.2.Directory ∉ fs.allocated ∧ p.2.Directory ∈ fs'.allocated := by
  rcases hc : createInternalTemplate dir with ⟨tpls, terr⟩
  unfold ExpandDirectory at h
  rw [hc] at h
  cases terr with
  | some e => simp at h
  | none =>
    obtain ⟨newPart, hres, hpw, hmem, -⟩ :=
      expandAllLoop_spec contexts tpls fs [] res fs' (by simpa using h)
    have hres' : res = newPart := by simpa using hres
    subst hres'
    exact ⟨hpw, hmem⟩

/-- An empty source directory used to run the expansion engine. -/
def exEmptyDir : SourceDir := ⟨gs "testdata/empty", [], [], []⟩

/-- The output directory allocated for context `c1` on a fresh filesystem. -/
def exOut1 : GoStr := gs "/tmp/prometheus-config-loader/tmp-c1-x"

/-- The output directory allocated for context `c2` right afterwards. -/
def exOut2 : GoStr := gs "/tmp/prometheus-config-loader/tmp-c2-" ++ List.replicate 39 'x'

/-- The expansion results of the two contexts. -/
def exRes : List (GoStr × TemplateData) :=
  [(gs "c1", ⟨gs "c1", exOut1, []⟩), (gs "c2", ⟨gs "c2", exOut2, []⟩)]

/-- The filesystem state after both allocations. -/
def exFS : FS := ⟨[exOut2, exOut1]⟩

/-- Claim C7 witness: expanding contexts `c1` and `c2` from the same
source on a fresh filesystem allocates two distinct output directories. -/
theorem claim7_witness :
    ExpandDirectory [gs "c1", gs "c2"] exEmptyDir ⟨[]⟩ = ((some exRes, none), exFS) ∧
    exRes.Pairwise (fun a b => a.2.Directory ≠ b.2.Directory) :=
  ⟨by decide, (claim7 [gs "c1", gs "c2"] exEmptyDir ⟨[]⟩ exRes exFS (by decide)).1⟩

end PromCfg
